import Mathlib

/-!
Verification development for the koishi-plugin-forward message relay core
(src/index.ts, current revision). The TypeScript source is shallowly
embedded: JS strings become lists of characters, fallible asynchronous
operations become Except-valued environment functions, and the in-memory
correlation map with its one-shot expiry timers becomes a time-indexed
functional store.
-/

set_option maxHeartbeats 1000000

namespace Forward

/-- Configured forwarding destination, mirroring the ForwardTarget
interface of the source. -/
structure ForwardTarget where
  platform : List Char
  channelId : List Char
  selfId : List Char
  guildId : Option (List Char) := none
deriving DecidableEq, Repr

/-- Correlation record stored in relayMap; the source declares RelayEntry
with exactly the fields of ForwardTarget. -/
abbrev RelayEntry := ForwardTarget

/-- Connected bot identity as exposed by ctx.bots. -/
structure Bot where
  platform : List Char
  selfId : List Char
deriving DecidableEq, Repr

/-- Static forwarding rule from the config file. -/
structure Rule where
  source : List Char
  target : List Char
  selfId : List Char
  guildId : Option (List Char) := none
deriving DecidableEq, Repr

/-- Result shape of parseTarget. -/
structure ParsedTarget where
  platform : List Char
  channelId : List Char
deriving DecidableEq, Repr

/-- Embedding of the JS String.prototype.startsWith test on character
lists: startsWithL pre s decides whether pre is an initial segment of s. -/
def startsWithL : List Char → List Char → Bool
  | [], _ => true
  | _ :: _, [] => false
  | p :: ps, c :: cs => p == c && startsWithL ps cs

/-- Helper for the JS Set-based deduplication: keeps the first occurrence
of each element, tracking already-seen elements. -/
def dedupAux (seen : List (List Char)) : List (List Char) → List (List Char)
  | [] => []
  | x :: xs => if x ∈ seen then dedupAux seen xs else x :: dedupAux (x :: seen) xs

/-- Embedding of the JS spread of a Set, which keeps the first occurrence
of each element in encounter order. -/
def jsSetDedup (l : List (List Char)) : List (List Char) := dedupAux [] l

/-- Insertion step of the descending-length sort used by parseTarget. -/
def insertByLen (x : List Char) : List (List Char) → List (List Char)
  | [] => [x]
  | y :: ys => if y.length ≤ x.length then x :: y :: ys else y :: insertByLen x ys

/-- Embedding of the sort by descending length applied to the platform
list in parseTarget. The JS comparator orders by descending string
length; any descending-length ordering yields the same parse result, so
insertion sort is used here. -/
def sortByLenDesc : List (List Char) → List (List Char)
  | [] => []
  | x :: xs => insertByLen x (sortByLenDesc xs)

/-- Platform candidate list computed at the top of parseTarget from the
connected bots: deduplicate, then sort by descending length. -/
def platformsOf (bots : List Bot) : List (List Char) :=
  sortByLenDesc (jsSetDedup (bots.map Bot.platform))

/-- Loop of parseTarget over the sorted platform list: the first nonempty
platform p such that the address starts with p followed by a colon wins,
and the channel id is everything after that colon. -/
def tryPlatforms (target : List Char) : List (List Char) → Option ParsedTarget
  | [] => none
  | p :: ps =>
    if !p.isEmpty && startsWithL (p ++ [':']) target then
      some ⟨p, target.drop (p.length + 1)⟩
    else
      tryPlatforms target ps

/-- Embedding of indexOf-colon plus the two slices of the parseTarget
fallback: splits the address at its first colon, returning none when the
address contains no colon at all. -/
def splitFirstColon : List Char → Option (List Char × List Char)
  | [] => none
  | c :: cs =>
    if c == ':' then some ([], cs)
    else
      match splitFirstColon cs with
      | none => none
      | some (pre, post) => some (c :: pre, post)

/-- Embedding of parseTarget: try the connected platforms longest first,
then fall back to splitting at the first colon. -/
def parseTarget (platforms : List (List Char)) (target : List Char) : Option ParsedTarget :=
  match tryPlatforms target platforms with
  | some r => some r
  | none =>
    match splitFirstColon target with
    | none => none
    | some (pre, post) => some ⟨pre, post⟩

/-- Embedding of formatTarget: platform, colon, channel id. -/
def formatTarget (t : ForwardTarget) : List Char :=
  t.platform ++ ':' :: t.channelId

/-- Embedding of findBot: first connected bot on the given platform. -/
def findBot (bots : List Bot) (platform : List Char) : Option (List Char) :=
  match bots.find? (fun b => b.platform == platform) with
  | some b => some b.selfId
  | none => none

/-- Value of the koishi Time.hour constant in milliseconds. -/
def hourMs : Nat := 3600000

/-- Embedding of the expression using replyTimeout with JS or-default:
zero and absent both fall back to one hour, since 0 is falsy in JS. -/
def effectiveReplyTimeout (replyTimeout : Option Nat) : Nat :=
  match replyTimeout with
  | none => hourMs
  | some t => if t = 0 then hourMs else t

/-- Time-indexed model of the relayMap dictionary together with its
one-shot deletion timers. Each live entry carries the absolute time at
which its scheduled timer fires and deletes it. -/
structure RelayStore where
  entries : List (List Char × RelayEntry × Nat)
deriving DecidableEq, Repr

/-- Store with no registered correlation entries. -/
def RelayStore.empty : RelayStore := ⟨[]⟩

/-- Embedding of the correlation registration in sendRelay: the map
assignment overwrites any entry under the same key, and setTimeout
schedules deletion ttl milliseconds after the current time. -/
def relayPut (st : RelayStore) (now : Nat) (key : List Char) (e : RelayEntry) (ttl : Nat) :
    RelayStore :=
  ⟨(key, e, now + ttl) :: st.entries.filter (fun x => !(x.1 == key))⟩

/-- Embedding of the relayMap lookup performed by the middleware: an
entry is observable strictly before its deletion timer fires and absent
from that point on. The lookup itself returns a value and leaves the
store untouched. -/
def relayGet (st : RelayStore) (now : Nat) (key : List Char) : Option RelayEntry :=
  match st.entries.find? (fun x => x.1 == key) with
  | none => none
  | some (_, e, expiry) => if now < expiry then some e else none

/-- Message-content element, mirroring the koishi segment model as used
by sendRelay: plain text and at-mention elements. The at constructor is
named atUser because at is a reserved word. -/
inductive Seg where
  | text (s : List Char)
  | atUser (id : List Char)
deriving DecidableEq, Repr

/-- Embedding of the length test on segment.select(content, at-type):
true when the content contains at least one at-mention element. -/
def hasAt (segs : List Seg) : Bool :=
  segs.any (fun s => match s with | .atUser _ => true | _ => false)

/-- Member directory returned by getGuildMemberMap: member id to display
name. -/
def lookupDict (dict : List (List Char × List Char)) (k : List Char) : Option (List Char) :=
  match dict.find? (fun p => p.1 == k) with
  | some p => some p.2
  | none => none

/-- Character rendering of the JS undefined value as it appears when
concatenated into a string. -/
def undefinedChars : List Char := ['u', 'n', 'd', 'e', 'f', 'i', 'n', 'e', 'd']

/-- Embedding of the at-handler passed to segment.transform: a falsy id
returns true, which keeps the original element; otherwise the element is
replaced by a text element holding an at-sign followed by the dictionary
value, where a missing dictionary value renders as undefined. -/
def renderAt (dict : List (List Char × List Char)) (id : List Char) : Seg :=
  if id.isEmpty then .atUser id
  else
    .text ('@' :: (match lookupDict dict id with
      | some nm => nm
      | none => undefinedChars))

/-- Embedding of segment.transform with the at-handler of sendRelay:
walks the content, rewriting each at-mention and keeping every other
element unchanged. -/
def transformAts (dict : List (List Char × List Char)) : List Seg → List Seg
  | [] => []
  | .atUser id :: rest => renderAt dict id :: transformAts dict rest
  | s :: rest => s :: transformAts dict rest

/-- Fields of the incoming session that sendRelay and the middleware
read: stripped content, author display name, source platform, normalized
channel id (getChannelId), bot self id, and the optional guild id. -/
structure RelaySession where
  content : List Seg
  authorName : List Char
  platform : List Char
  channelId : List Char
  selfId : List Char
  guildId : Option (List Char) := none
deriving DecidableEq, Repr

/-- Environment of external collaborators consumed by one sendRelay
invocation: the connected bot registry, the member directory request
(which may reject), and the per-destination send (which may reject or
return the sent message ids). -/
structure RelayEnv where
  bots : List Bot
  memberMap : Except (List Char) (List (List Char × List Char))
  send : ForwardTarget → List Char → Except (List Char) (List (List Char))

/-- Decides whether ctx.bots holds a bot under the platform:selfId key. -/
def botConnected (bots : List Bot) (platform selfId : List Char) : Bool :=
  bots.any (fun b => b.platform == platform && b.selfId == selfId)

/-- Observable outcome of one sendRelay invocation for one destination. -/
inductive RelayOutcome where
  | emptyContent
  | botNotFound
  | sent (content : List Seg) (ids : List (List Char))
  | errorLogged (msg : List Char)
deriving DecidableEq, Repr

/-- Embedding of the body of the try block of sendRelay: bot lookup with
logged early return, conditional mention rewriting via the member
directory, author-name prefixing, and the send call. A thrown collaborator
error surfaces as the error case. -/
def sendRelayCore (env : RelayEnv) (s : RelaySession) (entry : ForwardTarget) :
    Except (List Char) RelayOutcome :=
  if !botConnected env.bots entry.platform entry.selfId then .ok .botNotFound
  else
    match
      (if hasAt s.content && s.guildId.isSome then
        match env.memberMap with
        | .error e => Except.error e
        | .ok dict => Except.ok (transformAts dict s.content)
      else Except.ok s.content) with
    | .error e => .error e
    | .ok content2 =>
      let finalContent := Seg.text (s.authorName ++ [':', ' ']) :: content2
      match env.send entry (List.flatten (finalContent.map (fun sg => match sg with
          | Seg.text t => t
          | Seg.atUser id => '<' :: 'a' :: 't' :: ' ' :: id))) with
      | .error e => .error e
      | .ok ids => .ok (.sent finalContent ids)

/-- Embedding of sendRelay: the empty-content early return sits before
the try block, and the catch clause turns any thrown error into a logged
warning, so the function as a whole never propagates an exception. -/
def sendRelay (env : RelayEnv) (s : RelaySession) (entry : ForwardTarget) : RelayOutcome :=
  if s.content.isEmpty then .emptyContent
  else
    match sendRelayCore env s entry with
    | .ok o => o
    | .error e => .errorLogged e

/-- Correlation entry registered after a successful send: it points back
to the normalized source channel of the incoming session. -/
def sourceEntry (s : RelaySession) : RelayEntry :=
  ⟨s.platform, s.channelId, s.selfId, s.guildId⟩

/-- Embedding of the forward fan-out loop of the middleware: one
sendRelay task per resolved destination. -/
def fanOut (env : RelayEnv) (s : RelaySession) (targets : List ForwardTarget) :
    List RelayOutcome :=
  targets.map (sendRelay env s)

/-- Observable result of one middleware invocation: the list of entries
passed to sendRelay, the per-destination relay outcomes, whether the next
continuation was invoked, and the value the middleware returns (some
value from next, or none when the middleware returns the reply-relay
result instead). -/
structure MWResult where
  relays : List ForwardTarget
  outcomes : List RelayOutcome
  ranNext : Bool
  returned : Option Nat
deriving DecidableEq, Repr

/-- Embedding of the middleware branch structure: a quoted id that is
live in relayMap routes the message to the single recorded origin and
returns without invoking next; otherwise the resolved targets are fanned
out and the middleware awaits next together with all relay tasks,
returning the value of next. The resolved target list is a parameter so
that the reply branch is by construction independent of it. -/
def middlewareModel (env : RelayEnv) (store : RelayStore) (now : Nat) (s : RelaySession)
    (quoteId : Option (List Char)) (targets : List ForwardTarget) (nextResult : Nat) :
    MWResult :=
  match quoteId with
  | some qid =>
    match relayGet store now qid with
    | some e => ⟨[e], [sendRelay env s e], false, none⟩
    | none => ⟨targets, fanOut env s targets, true, some nextResult⟩
  | none => ⟨targets, fanOut env s targets, true, some nextResult⟩

/-- Storage mode from the plugin configuration. -/
inductive Mode where
  | database
  | config
deriving DecidableEq, Repr

/-- Row shape returned by the channel table read: the forward field may
be null, which the source defaults to the empty list. -/
structure DbChannel where
  forward : Option (List ForwardTarget)
deriving DecidableEq, Repr

/-- Session fields read by getTargets and the commands: the cached
channel record (present only when attached with an array-valued forward
field), the normalized channel id, the platform, and the cid string. -/
structure SessInfo where
  channelForward : Option (List ForwardTarget) := none
  channelId : Option (List Char) := none
  platform : List Char
  cid : List Char
deriving DecidableEq, Repr

/-- Result of target resolution: the resolved destinations plus whether
a storage-failure warning was logged. The return type is total, so a
store error can never escape to the caller. -/
structure ResolveResult where
  targets : List ForwardTarget
  logged : Bool
deriving DecidableEq, Repr

/-- Embedding of getTargets. In database mode: the attached channel
record wins; otherwise the channel table is read, a thrown store error is
caught and logged and yields the empty list, a missing row or missing
channel id also yields the empty list. In config mode: rules whose source
equals the session cid are kept, their target addresses are parsed, and
unparseable rules are discarded by the Boolean filter. -/
def getTargets (mode : Mode) (rules : List Rule) (platforms : List (List Char))
    (dbRead : Except (List Char) (List DbChannel)) (s : SessInfo) : ResolveResult :=
  match mode with
  | .database =>
    match s.channelForward with
    | some f => ⟨f, false⟩
    | none =>
      match s.channelId with
      | some _ =>
        (match dbRead with
         | .error _ => ⟨[], true⟩
         | .ok rows =>
           match rows.head? with
           | some ch => ⟨ch.forward.getD [], false⟩
           | none => ⟨[], false⟩)
      | none => ⟨[], false⟩
  | .config =>
    ⟨(rules.filter (fun r => r.source == s.cid)).filterMap (fun r =>
        match parseTarget platforms r.target with
        | none => none
        | some p => some ⟨p.platform, p.channelId, r.selfId, r.guildId⟩), false⟩

/-- Persistent channel store keyed by platform and channel id, as touched
by the upsert calls of the commands. -/
abbrev Store := List ((List Char × List Char) × List ForwardTarget)

/-- Lists the stored forward targets of one channel key. -/
def storeLookup (store : Store) (k : List Char × List Char) : Option (List ForwardTarget) :=
  match store.find? (fun e => e.1 == k) with
  | some e => some e.2
  | none => none

/-- Embedding of the upsert write on the channel table keyed by platform
and id: replace the matching row or append a fresh one. -/
def storeUpsert (store : Store) (k : List Char × List Char) (v : List ForwardTarget) : Store :=
  if (List.find? (fun e => e.1 == k) store).isSome then
    store.map (fun e => if e.1 == k then (k, v) else e)
  else
    store ++ [(k, v)]

/-- Target list the remove command obtains from getTargets against a
working database: the attached channel record if present, else the stored
row, else empty. -/
def getTargetsDb (s : SessInfo) (store : Store) : List ForwardTarget :=
  match s.channelForward with
  | some f => f
  | none =>
    match s.channelId with
    | some cid => (storeLookup store (s.platform, cid)).getD []
    | none => []

/-- User-visible reply of a forward subcommand. -/
inductive CmdReply where
  | updated (addr : List Char)
  | unchanged (addr : List Char)
  | noBot
deriving DecidableEq, Repr

/-- Embedding of the remove subcommand action: parse the address first
and reply unchanged on failure without touching the store; otherwise
locate the target by platform and channel id, splice it out, and upsert
the shortened list when a channel id is available. -/
def removeCmd (platforms : List (List Char)) (s : SessInfo) (store : Store)
    (addr : List Char) : CmdReply × Store :=
  match parseTarget platforms addr with
  | none => (.unchanged addr, store)
  | some parsed =>
    let targets := getTargetsDb s store
    match targets.findIdx? (fun t =>
        t.platform == parsed.platform && t.channelId == parsed.channelId) with
    | some idx =>
      (match s.channelId with
       | some cid => (.updated addr, storeUpsert store (s.platform, cid) (targets.eraseIdx idx))
       | none => (.updated addr, store))
    | none => (.unchanged addr, store)

/-- Concrete correlation entry used by witness statements. -/
def entryW : RelayEntry := ⟨['p'], ['c'], ['s'], none⟩

/-- Concrete correlation store holding one entry registered at time 0
with TTL 1000 under the key m. -/
def storeW : RelayStore := relayPut RelayStore.empty 0 ['m'] entryW 1000

/-- Concrete incoming session used by witness statements. -/
def sessW : RelaySession := ⟨[Seg.text ['h']], ['A'], ['p'], ['c'], ['s'], none⟩

/-- Concrete benign relay environment used by witness statements. -/
def envW : RelayEnv := ⟨[], Except.ok [], fun _ _ => Except.ok []⟩

/-- Concrete forwarding destination used by witness statements. -/
def targetW : ForwardTarget := ⟨['d'], ['1'], ['b'], none⟩

/-- Concrete destination whose send is made to throw in the failing
relay environment below. -/
def kW : ForwardTarget := ⟨['d'], ['k'], ['b'], none⟩

/-- Relay environment with a connected bot for platform d whose send
throws exactly for the channel of kW and succeeds elsewhere. -/
def envFailW : RelayEnv :=
  ⟨[⟨['d'], ['b']⟩], Except.ok [],
    fun t _ => if t.channelId = ['k'] then Except.error ['E'] else Except.ok [['i']]⟩

/-! Lemmas about the startsWith embedding. -/

theorem startsWithL_iff (pre s : List Char) :
    startsWithL pre s = true ↔ ∃ r, s = pre ++ r := by
  induction pre generalizing s with
  | nil => simp [startsWithL]
  | cons p ps ih =>
    cases s with
    | nil => simp [startsWithL]
    | cons c cs =>
      simp only [startsWithL, Bool.and_eq_true, beq_iff_eq, ih, List.cons_append,
        List.cons.injEq]
      constructor
      · rintro ⟨rfl, r, rfl⟩
        exact ⟨r, rfl, rfl⟩
      · rintro ⟨r, rfl, rfl⟩
        exact ⟨rfl, r, rfl⟩

theorem startsWithL_append (pre r : List Char) : startsWithL pre (pre ++ r) = true :=
  (startsWithL_iff pre (pre ++ r)).mpr ⟨r, rfl⟩

theorem drop_colon (p c : List Char) : (p ++ ':' :: c).drop (p.length + 1) = c := by
  have h : p ++ ':' :: c = (p ++ [':']) ++ c := by simp
  have h2 : p.length + 1 = (p ++ [':']).length := by simp
  rw [h, h2, List.drop_left]

theorem prefix_colon_eq {q p c : List Char}
    (h : startsWithL (q ++ [':']) (p ++ ':' :: c) = true) (hlen : q.length = p.length) :
    q = p := by
  obtain ⟨r, hr⟩ := (startsWithL_iff _ _).mp h
  have heq : q ++ ':' :: r = p ++ ':' :: c := by
    rw [hr]; simp
  exact (List.append_inj heq hlen).1

/-! Lemmas about the parseTarget loop over the sorted platform list. -/

theorem tryPlatforms_colon_mem {l : List (List Char)} {target : List Char} {r : ParsedTarget}
    (h : tryPlatforms target l = some r) : ':' ∈ target := by
  induction l with
  | nil => simp [tryPlatforms] at h
  | cons q qs ih =>
    by_cases hg : (!q.isEmpty && startsWithL (q ++ [':']) target) = true
    · rw [Bool.and_eq_true] at hg
      obtain ⟨r2, hr2⟩ := (startsWithL_iff _ _).mp hg.2
      rw [hr2]
      simp
    · simp only [tryPlatforms, if_neg hg] at h
      exact ih h

theorem tryPlatforms_format {l : List (List Char)} {target : List Char} {r : ParsedTarget}
    (h : tryPlatforms target l = some r) : r.platform ++ ':' :: r.channelId = target := by
  induction l with
  | nil => simp [tryPlatforms] at h
  | cons q qs ih =>
    by_cases hg : (!q.isEmpty && startsWithL (q ++ [':']) target) = true
    · simp only [tryPlatforms, if_pos hg, Option.some.injEq] at h
      subst h
      rw [Bool.and_eq_true] at hg
      obtain ⟨rest, hrest⟩ := (startsWithL_iff _ _).mp hg.2
      subst hrest
      have hd : ((q ++ [':']) ++ rest).drop (q.length + 1) = rest := by
        have h4 := drop_colon q rest
        simp at h4
        simp [h4]
      simp [hd]
    · simp only [tryPlatforms, if_neg hg] at h
      exact ih h

theorem tryPlatforms_longest {l : List (List Char)} {p c : List Char}
    (hmem : p ∈ l) (hne : p ≠ [])
    (hsorted : l.Pairwise (fun a b => b.length ≤ a.length))
    (hmax : ∀ q ∈ l, startsWithL (q ++ [':']) (p ++ ':' :: c) = true → q.length ≤ p.length) :
    tryPlatforms (p ++ ':' :: c) l = some ⟨p, c⟩ := by
  induction l with
  | nil => simp at hmem
  | cons q qs ih =>
    rw [List.pairwise_cons] at hsorted
    by_cases hg : (!q.isEmpty && startsWithL (q ++ [':']) (p ++ ':' :: c)) = true
    · have hga := hg
      rw [Bool.and_eq_true] at hga
      have hqp : q.length ≤ p.length := hmax q (List.mem_cons_self q qs) hga.2
      have hpq : p.length ≤ q.length := by
        rcases List.mem_cons.mp hmem with rfl | hmem2
        · exact le_refl _
        · exact hsorted.1 p hmem2
      have hqeq : q = p := prefix_colon_eq hga.2 (Nat.le_antisymm hqp hpq)
      subst hqeq
      simp only [tryPlatforms, if_pos hg, drop_colon]
    · have hpq : p ≠ q := by
        rintro rfl
        apply hg
        rw [Bool.and_eq_true]
        refine ⟨?_, ?_⟩
        · cases p with
          | nil => exact absurd rfl hne
          | cons a as => rfl
        · have h3 : p ++ ':' :: c = (p ++ [':']) ++ c := by simp
          rw [h3]
          exact startsWithL_append _ _
      have hmem2 : p ∈ qs := by
        rcases List.mem_cons.mp hmem with rfl | h2
        · exact absurd rfl hpq
        · exact h2
      simp only [tryPlatforms, if_neg hg]
      exact ih hmem2 hsorted.2 (fun r hr hsw => hmax r (List.mem_cons_of_mem _ hr) hsw)

/-! Lemmas about deduplication and the descending-length sort. -/

theorem mem_insertByLen {a x : List Char} {l : List (List Char)} :
    a ∈ insertByLen x l ↔ a = x ∨ a ∈ l := by
  induction l with
  | nil => simp [insertByLen]
  | cons y ys ih =>
    by_cases h : y.length ≤ x.length
    · simp [insertByLen, if_pos h]
    · simp only [insertByLen, if_neg h, List.mem_cons, ih]
      tauto

theorem pairwise_insertByLen {x : List Char} {l : List (List Char)}
    (h : l.Pairwise (fun a b => b.length ≤ a.length)) :
    (insertByLen x l).Pairwise (fun a b => b.length ≤ a.length) := by
  induction l with
  | nil => simp [insertByLen]
  | cons y ys ih =>
    rw [List.pairwise_cons] at h
    by_cases hle : y.length ≤ x.length
    · simp only [insertByLen, if_pos hle]
      rw [List.pairwise_cons]
      refine ⟨?_, List.pairwise_cons.mpr h⟩
      intro b hb
      rcases List.mem_cons.mp hb with rfl | hb2
      · exact hle
      · exact le_trans (h.1 b hb2) hle
    · simp only [insertByLen, if_neg hle]
      rw [List.pairwise_cons]
      refine ⟨?_, ih h.2⟩
      intro b hb
      rcases mem_insertByLen.mp hb with rfl | hb2
      · exact le_of_not_le hle
      · exact h.1 b hb2

theorem sortByLenDesc_pairwise (l : List (List Char)) :
    (sortByLenDesc l).Pairwise (fun a b => b.length ≤ a.length) := by
  induction l with
  | nil => simp [sortByLenDesc]
  | cons x xs ih => exact pairwise_insertByLen ih

theorem mem_sortByLenDesc {a : List Char} {l : List (List Char)} :
    a ∈ sortByLenDesc l ↔ a ∈ l := by
  induction l with
  | nil => simp [sortByLenDesc]
  | cons x xs ih => simp [sortByLenDesc, mem_insertByLen, ih]

theorem mem_dedupAux {a : List Char} {l seen : List (List Char)} :
    a ∈ dedupAux seen l ↔ a ∈ l ∧ a ∉ seen := by
  induction l generalizing seen with
  | nil => simp [dedupAux]
  | cons x xs ih =>
    by_cases hc : x ∈ seen
    · simp only [dedupAux, if_pos hc, ih, List.mem_cons]
      constructor
      · rintro ⟨h1, h2⟩
        exact ⟨Or.inr h1, h2⟩
      · rintro ⟨rfl | h1, h2⟩
        · exact absurd hc h2
        · exact ⟨h1, h2⟩
    · simp only [dedupAux, if_neg hc, List.mem_cons, ih]
      constructor
      · rintro (rfl | ⟨h1, h2⟩)
        · exact ⟨Or.inl rfl, hc⟩
        · exact ⟨Or.inr h1, fun hs => h2 (Or.inr hs)⟩
      · rintro ⟨rfl | h1, h2⟩
        · exact Or.inl rfl
        · by_cases hax : a = x
          · exact Or.inl hax
          · refine Or.inr ⟨h1, fun hs => ?_⟩
            rcases hs with rfl | hs2
            · exact hax rfl
            · exact h2 hs2

theorem mem_jsSetDedup {a : List Char} {l : List (List Char)} :
    a ∈ jsSetDedup l ↔ a ∈ l := by
  rw [jsSetDedup, mem_dedupAux]
  simp

theorem mem_platformsOf {a : List Char} {bots : List Bot} :
    a ∈ platformsOf bots ↔ a ∈ bots.map Bot.platform := by
  rw [platformsOf, mem_sortByLenDesc, mem_jsSetDedup]

theorem platformsOf_pairwise (bots : List Bot) :
    (platformsOf bots).Pairwise (fun a b => b.length ≤ a.length) :=
  sortByLenDesc_pairwise _

/-! Lemmas about the fallback split at the first colon. -/

theorem splitFirstColon_format {s pre post : List Char}
    (h : splitFirstColon s = some (pre, post)) : pre ++ ':' :: post = s := by
  induction s generalizing pre post with
  | nil => simp [splitFirstColon] at h
  | cons c cs ih =>
    by_cases hc : (c == ':') = true
    · have hceq : c = ':' := beq_iff_eq.mp hc
      subst hceq
      simp only [splitFirstColon, if_pos hc, Option.some.injEq, Prod.mk.injEq] at h
      obtain ⟨rfl, rfl⟩ := h
      simp
    · simp only [splitFirstColon, if_neg hc] at h
      cases hsc : splitFirstColon cs with
      | none => rw [hsc] at h; simp at h
      | some pr =>
        obtain ⟨a, b⟩ := pr
        rw [hsc] at h
        simp only [Option.some.injEq, Prod.mk.injEq] at h
        obtain ⟨rfl, rfl⟩ := h
        have := ih hsc
        rw [List.cons_append, this]

theorem splitFirstColon_isSome (s1 s2 : List Char) :
    splitFirstColon (s1 ++ ':' :: s2) ≠ none := by
  induction s1 with
  | nil => simp [splitFirstColon]
  | cons c cs ih =>
    by_cases hc : (c == ':') = true
    · have hceq : c = ':' := beq_iff_eq.mp hc
      subst hceq
      simp [splitFirstColon]
    · simp only [List.cons_append, splitFirstColon, if_neg hc]
      cases hsc : splitFirstColon (cs ++ ':' :: s2) with
      | none => exact absurd hsc ih
      | some pr => simp

/-- Claim C2: an address built from a connected platform name p and a
channel id c parses to exactly that pair, the channel id may itself
contain colons, and no shorter platform name can win the match because
the longest valid platform prefix is chosen. The maximality hypothesis
states that p is a longest connected-platform prefix of the address,
which is the disambiguation rule the claim itself asserts. -/
theorem forward_c2 (bots : List Bot) (p c : List Char)
    (hmem : p ∈ bots.map Bot.platform) (hne : p ≠ [])
    (hmax : ∀ q ∈ bots.map Bot.platform,
      startsWithL (q ++ [':']) (p ++ ':' :: c) = true → q.length ≤ p.length) :
    parseTarget (platformsOf bots) (p ++ ':' :: c) = some ⟨p, c⟩ := by
  have h := tryPlatforms_longest (mem_platformsOf.mpr hmem) hne (platformsOf_pairwise bots)
    (fun q hq hsw => hmax q (mem_platformsOf.mp hq) hsw)
  simp [parseTarget, h]

/-- Witness for C2 at a concrete input: one connected bot on platform q,
address q:a:b, whose channel id a:b contains a colon. -/
theorem forward_c2_witness :
    ['q'] ∈ ([⟨['q'], ['s']⟩] : List Bot).map Bot.platform ∧
    parseTarget (platformsOf [⟨['q'], ['s']⟩]) (['q'] ++ ':' :: ['a', ':', 'b'])
      = some ⟨['q'], ['a', ':', 'b']⟩ :=
  ⟨by decide,
    forward_c2 [⟨['q'], ['s']⟩] ['q'] ['a', ':', 'b'] (by decide) (by decide) (by decide)⟩

/-- Claim C6: formatting the parse of a well-formed address returns the
original address, and formatTarget reads only the platform and channel
fields, so the round trip holds for every selfId and guildId attached to
the parsed pair. -/
theorem forward_c6 (platforms : List (List Char)) (p c : List Char) :
    ∃ t, parseTarget platforms (p ++ ':' :: c) = some t ∧
      ∀ sid g, formatTarget ⟨t.platform, t.channelId, sid, g⟩ = p ++ ':' :: c := by
  cases htry : tryPlatforms (p ++ ':' :: c) platforms with
  | some r =>
    refine ⟨r, ?_, ?_⟩
    · simp [parseTarget, htry]
    · intro sid g
      simpa [formatTarget] using tryPlatforms_format htry
  | none =>
    cases hsp : splitFirstColon (p ++ ':' :: c) with
    | none => exact absurd hsp (splitFirstColon_isSome p c)
    | some pr =>
      obtain ⟨pre, post⟩ := pr
      refine ⟨⟨pre, post⟩, ?_, ?_⟩
      · simp [parseTarget, htry, hsp]
      · intro sid g
        simpa [formatTarget] using splitFirstColon_format hsp

/-- Counterexample to C7 as stated: an address beginning with a colon is
malformed by the claim, yet parseTarget returns a parsed target with an
empty platform instead of absence. -/
theorem forward_c7_counterexample :
    parseTarget [] [':', 'a'] = some ⟨[], ['a']⟩ ∧ parseTarget [] [':', 'a'] ≠ none := by
  decide

/-- Claim C7 (amended): parseTarget returns absence exactly for addresses
containing no colon delimiter at all; an address beginning with a colon
parses to a target with an empty platform part instead of absence. -/
theorem forward_c7 (platforms : List (List Char)) (s : List Char) :
    parseTarget platforms s = none ↔ ':' ∉ s := by
  constructor
  · intro h hmem
    obtain ⟨s1, s2, rfl⟩ := List.append_of_mem hmem
    cases htry : tryPlatforms (s1 ++ ':' :: s2) platforms with
    | some r => simp [parseTarget, htry] at h
    | none =>
      cases hsp : splitFirstColon (s1 ++ ':' :: s2) with
      | none => exact absurd hsp (splitFirstColon_isSome s1 s2)
      | some pr => simp [parseTarget, htry, hsp] at h
  · intro h
    cases htry : tryPlatforms s platforms with
    | some r => exact absurd (tryPlatforms_colon_mem htry) h
    | none =>
      cases hsp : splitFirstColon s with
      | some pr =>
        obtain ⟨a, b⟩ := pr
        refine absurd ?_ h
        rw [← splitFirstColon_format hsp]
        simp
      | none => simp [parseTarget, htry, hsp]

/-! Correlation store, middleware, dispatch and command theorems. -/

/-- Claim C5: a correlation entry registered at time now with the
effective TTL (the configured replyTimeout, one hour when unset) is
retrievable at every time strictly before now plus the TTL and absent at
every time from that point on; relayGet is a pure function of the store
and the clock, so the lookup has no side effects. -/
theorem forward_c5 (st : RelayStore) (now : Nat) (key : List Char) (e : RelayEntry)
    (cfg : Option Nat) (t : Nat) :
    relayGet (relayPut st now key e (effectiveReplyTimeout cfg)) (now + t) key =
      if t < effectiveReplyTimeout cfg then some e else none := by
  have h : List.find? (fun x => x.1 == key)
      ((key, e, now + effectiveReplyTimeout cfg) ::
        st.entries.filter (fun x => !(x.1 == key))) =
      some (key, e, now + effectiveReplyTimeout cfg) := by
    simp [List.find?]
  simp [relayGet, relayPut, h, Nat.add_lt_add_iff_left]

/-- Claim C1: a quoted id that is live in the correlation store routes
the message to exactly the recorded origin entry, with a middleware
result that is independent of the resolved target list (the Target
Resolver is bypassed); a missing quotation or a dead quoted id fans out
to all resolved targets. -/
theorem forward_c1 (env : RelayEnv) (store : RelayStore) (now : Nat) (s : RelaySession)
    (qid : List Char) (e : RelayEntry) (targets targets2 : List ForwardTarget) (n : Nat) :
    (relayGet store now qid = some e →
      (middlewareModel env store now s (some qid) targets n).relays = [e] ∧
      middlewareModel env store now s (some qid) targets n
        = middlewareModel env store now s (some qid) targets2 n) ∧
    (relayGet store now qid = none →
      (middlewareModel env store now s (some qid) targets n).relays = targets) ∧
    (middlewareModel env store now s none targets n).relays = targets := by
  refine ⟨fun h => ?_, fun h => ?_, ?_⟩
  · constructor
    · simp [middlewareModel, h]
    · simp [middlewareModel, h]
  · simp [middlewareModel, h]
  · simp [middlewareModel]

/-- Witness for C1: with the key m live in the store, the middleware
relays to the single recorded origin and its result does not change when
the resolved target list does; the dead key x falls back to fan-out. -/
theorem forward_c1_witness :
    relayGet storeW 5 ['m'] = some entryW ∧
    (middlewareModel envW storeW 5 sessW (some ['m']) [targetW] 7).relays = [entryW] ∧
    middlewareModel envW storeW 5 sessW (some ['m']) [targetW] 7
      = middlewareModel envW storeW 5 sessW (some ['m']) [] 7 ∧
    (middlewareModel envW storeW 5 sessW (some ['x']) [targetW] 7).relays = [targetW] :=
  ⟨rfl,
    ((forward_c1 envW storeW 5 sessW ['m'] entryW [targetW] [] 7).1 rfl).1,
    ((forward_c1 envW storeW 5 sessW ['m'] entryW [targetW] [] 7).1 rfl).2,
    (forward_c1 envW storeW 5 sessW ['x'] entryW [targetW] [] 7).2.1 rfl⟩

/-- Counterexample to C4 as stated: with a live correlation entry for
the quoted id the middleware takes the reply-candidate branch, which
returns the relay result without invoking the next continuation, so next
does not run for every incoming message. -/
theorem forward_c4_counterexample :
    (middlewareModel envW storeW 5 sessW (some ['m']) [targetW] 7).ranNext = false ∧
    (middlewareModel envW storeW 5 sessW (some ['m']) [targetW] 7).returned = none :=
  ⟨rfl, rfl⟩

/-- Claim C4 (amended): on the forward-candidate path (no quotation, or
a quoted id that is not live) the middleware always invokes next and
returns its result, for every relay environment and hence regardless of
any relay failures; on the reply-candidate path it returns the
reply-relay result without invoking next. -/
theorem forward_c4 (env : RelayEnv) (store : RelayStore) (now : Nat) (s : RelaySession)
    (qid : List Char) (targets : List ForwardTarget) (n : Nat) :
    ((middlewareModel env store now s none targets n).ranNext = true ∧
      (middlewareModel env store now s none targets n).returned = some n) ∧
    (relayGet store now qid = none →
      (middlewareModel env store now s (some qid) targets n).ranNext = true ∧
      (middlewareModel env store now s (some qid) targets n).returned = some n) ∧
    (∀ e, relayGet store now qid = some e →
      (middlewareModel env store now s (some qid) targets n).ranNext = false ∧
      (middlewareModel env store now s (some qid) targets n).returned = none) := by
  refine ⟨⟨rfl, rfl⟩, fun h => ?_, fun e h => ?_⟩
  · constructor
    · simp [middlewareModel, h]
    · simp [middlewareModel, h]
  · constructor
    · simp [middlewareModel, h]
    · simp [middlewareModel, h]

/-- Witness for C4: the dead key x runs next and returns its value 7;
the live key m suppresses next. -/
theorem forward_c4_witness :
    relayGet storeW 5 ['x'] = none ∧
    (middlewareModel envW storeW 5 sessW (some ['x']) [targetW] 7).ranNext = true ∧
    (middlewareModel envW storeW 5 sessW (some ['x']) [targetW] 7).returned = some 7 ∧
    relayGet storeW 5 ['m'] = some entryW ∧
    (middlewareModel envW storeW 5 sessW (some ['m']) [targetW] 7).ranNext = false :=
  ⟨rfl,
    ((forward_c4 envW storeW 5 sessW ['x'] [targetW] 7).2.1 rfl).1,
    ((forward_c4 envW storeW 5 sessW ['x'] [targetW] 7).2.1 rfl).2,
    rfl,
    ((forward_c4 envW storeW 5 sessW ['m'] [targetW] 7).2.2 entryW rfl).1⟩

/-- Claim C3: during fan-out, a destination whose relay core throws gets
the caught-and-logged outcome in its own slot, and every other
destination's outcome is exactly what it would be with the failing
destination absent, because outcomes are computed independently per
destination. -/
theorem forward_c3 (env : RelayEnv) (s : RelaySession) (ts1 ts2 : List ForwardTarget)
    (k : ForwardTarget) (msg : List Char)
    (hcontent : s.content.isEmpty = false)
    (hk : sendRelayCore env s k = Except.error msg) :
    fanOut env s (ts1 ++ k :: ts2)
      = fanOut env s ts1 ++ RelayOutcome.errorLogged msg :: fanOut env s ts2 ∧
    fanOut env s (ts1 ++ ts2) = fanOut env s ts1 ++ fanOut env s ts2 := by
  constructor
  · simp [fanOut, List.map_append, sendRelay, hcontent, hk]
  · simp [fanOut, List.map_append]

/-- Witness for C3: in the failing environment the send to kW throws,
the fan-out logs that error in place, and the sibling destinations keep
their successful outcomes. -/
theorem forward_c3_witness :
    sessW.content.isEmpty = false ∧
    sendRelayCore envFailW sessW kW = Except.error ['E'] ∧
    fanOut envFailW sessW ([targetW] ++ kW :: [targetW])
      = fanOut envFailW sessW [targetW]
        ++ RelayOutcome.errorLogged ['E'] :: fanOut envFailW sessW [targetW] :=
  ⟨rfl, rfl, (forward_c3 envFailW sessW [targetW] [targetW] kW ['E'] rfl rfl).1⟩

/-- Claim C8: in database mode, when the channel record is not attached
and the store read throws, target resolution returns the empty list with
a logged warning; the result type is total, so the error never reaches
the caller. -/
theorem forward_c8 (rules : List Rule) (platforms : List (List Char)) (s : SessInfo)
    (err : List Char) (cid : List Char)
    (hchan : s.channelForward = none) (hcid : s.channelId = some cid) :
    getTargets Mode.database rules platforms (Except.error err) s
      = ⟨[], true⟩ := by
  simp [getTargets, hchan, hcid]

/-- Witness for C8 at a concrete session whose store read throws. -/
theorem forward_c8_witness :
    getTargets Mode.database [] [] (Except.error ['E'])
      ⟨none, some ['c'], ['p'], ['p', ':', 'c']⟩ = ⟨[], true⟩ :=
  forward_c8 [] [] ⟨none, some ['c'], ['p'], ['p', ':', 'c']⟩ ['E'] ['c'] rfl rfl

/-- Claim C10: the remove subcommand given an address that fails to
parse replies unchanged and performs no store write, so the persisted
forward-target list is identical before and after the command. -/
theorem forward_c10 (platforms : List (List Char)) (s : SessInfo) (store : Store)
    (addr : List Char) (h : parseTarget platforms addr = none) :
    removeCmd platforms s store addr = (CmdReply.unchanged addr, store) := by
  simp [removeCmd, h]

/-- Witness for C10: the colon-free address x fails to parse and the
command leaves a nonempty store untouched. -/
theorem forward_c10_witness :
    parseTarget [] ['x'] = none ∧
    removeCmd [] ⟨none, some ['c'], ['p'], ['p', ':', 'c']⟩
        [((['p'], ['c']), [targetW])] ['x']
      = (CmdReply.unchanged ['x'], [((['p'], ['c']), [targetW])]) :=
  ⟨rfl, forward_c10 [] ⟨none, some ['c'], ['p'], ['p', ':', 'c']⟩
    [((['p'], ['c']), [targetW])] ['x'] rfl⟩

/-! Mention-rewrite theorems. -/

theorem transformAts_cons_text (dict : List (List Char × List Char)) (t : List Char)
    (r : List Seg) :
    transformAts dict (Seg.text t :: r) = Seg.text t :: transformAts dict r := rfl

theorem transformAts_cons_at (dict : List (List Char × List Char)) (id : List Char)
    (r : List Seg) :
    transformAts dict (Seg.atUser id :: r) = renderAt dict id :: transformAts dict r := rfl

theorem transformAts_append (dict : List (List Char × List Char)) (l1 l2 : List Seg) :
    transformAts dict (l1 ++ l2) = transformAts dict l1 ++ transformAts dict l2 := by
  induction l1 with
  | nil => simp [transformAts]
  | cons s rest ih =>
    cases s with
    | text t => rw [List.cons_append, transformAts_cons_text, transformAts_cons_text,
        ih, List.cons_append]
    | atUser id => rw [List.cons_append, transformAts_cons_at, transformAts_cons_at,
        ih, List.cons_append]

/-- Counterexample to C9 as stated: a mention whose nonempty id u does
not resolve in the (empty) member directory is not left as a literal
pass-through marker; it is replaced by a text token reading an at-sign
followed by undefined. -/
theorem forward_c9_counterexample :
    transformAts [] [Seg.atUser ['u']] = [Seg.text ('@' :: undefinedChars)] ∧
    transformAts [] [Seg.atUser ['u']] ≠ [Seg.atUser ['u']] := by
  decide

/-- Claim C9 (amended): in the mention rewrite, a mention whose id
resolves in the source guild member directory becomes a plain text token
of an at-sign and the display name; a mention with a missing (empty) id
is kept as a literal pass-through marker; a mention whose nonempty id is
absent from the directory is replaced by an at-sign followed by the
rendering of the JS undefined value rather than being passed through. -/
theorem forward_c9 (dict : List (List Char × List Char)) (pre post : List Seg)
    (id : List Char) :
    (∀ nm, id.isEmpty = false → lookupDict dict id = some nm →
      transformAts dict (pre ++ Seg.atUser id :: post)
        = transformAts dict pre ++ Seg.text ('@' :: nm) :: transformAts dict post) ∧
    (id.isEmpty = true →
      transformAts dict (pre ++ Seg.atUser id :: post)
        = transformAts dict pre ++ Seg.atUser id :: transformAts dict post) ∧
    (id.isEmpty = false → lookupDict dict id = none →
      transformAts dict (pre ++ Seg.atUser id :: post)
        = transformAts dict pre ++ Seg.text ('@' :: undefinedChars) :: transformAts dict post) := by
  refine ⟨fun nm h1 h2 => ?_, fun h1 => ?_, fun h1 h2 => ?_⟩
  · rw [transformAts_append, transformAts_cons_at]
    simp [renderAt, h1, h2]
  · rw [transformAts_append, transformAts_cons_at]
    simp [renderAt, h1]
  · rw [transformAts_append, transformAts_cons_at]
    simp [renderAt, h1, h2]

/-- Witness for C9: with the directory mapping u to N, a mention of u
becomes the text token at-N; the empty-id mention passes through. -/
theorem forward_c9_witness :
    (['u'] : List Char).isEmpty = false ∧
    lookupDict [(['u'], ['N'])] ['u'] = some ['N'] ∧
    transformAts [(['u'], ['N'])] ([Seg.text ['h']] ++ Seg.atUser ['u'] :: [])
      = transformAts [(['u'], ['N'])] [Seg.text ['h']]
        ++ Seg.text ('@' :: ['N']) :: transformAts [(['u'], ['N'])] [] ∧
    transformAts [(['u'], ['N'])] ([] ++ Seg.atUser [] :: [])
      = transformAts [(['u'], ['N'])] [] ++ Seg.atUser [] :: transformAts [(['u'], ['N'])] [] :=
  ⟨rfl, rfl,
    (forward_c9 [(['u'], ['N'])] [Seg.text ['h']] [] ['u']).1 ['N'] rfl rfl,
    (forward_c9 [(['u'], ['N'])] [] [] []).2.1 rfl⟩

end Forward
